import Mathlib

/-!
Verification of `.github/scripts/parse_unity_output.py`.

The script scans a QEMU log for Unity test summary lines matching the regex
`(\d+)\s+Tests\s+(\d+)\s+Failures\s+(\d+)\s+Ignored` (via `re.findall`),
takes the last match, parses its three integers, and maps the result to a
process exit code.  We embed the scan as a greedy matcher over `List Char`:
for this pattern greedy matching without backtracking coincides with the
regex semantics, because a maximal digit run is always followed by a
non-digit and a maximal whitespace run by a non-whitespace wherever the
pattern could continue.  `re.findall` scans left to right for the leftmost
match and resumes after each match end (non-overlapping); `findAll` below
does exactly that.  Characters are modelled with the ASCII semantics of the
regex classes (`\d` as `0`-`9`, `\s` as the six ASCII whitespace characters),
which covers the log files the script consumes.

The CLI driver `main` is modelled as a pure function of a filesystem map
(path to readable content, `none` when the path is not a readable file)
and the argument vector `sys.argv`, returning the exit code together with
the lines written to stdout and stderr.
-/

/-- ASCII decimal digit, the `\d` class restricted to ASCII. -/
def isDigitC (c : Char) : Bool := '0' ≤ c && c ≤ '9'

/-- ASCII whitespace, the `\s` class restricted to ASCII:
space, tab, newline, carriage return, vertical tab, form feed. -/
def isSpaceC (c : Char) : Bool :=
  c = ' ' || c = '\t' || c = '\n' || c = '\r' || c = '\x0b' || c = '\x0c'

/-- Numeric value of one ASCII digit. -/
def digitVal (c : Char) : Nat := c.toNat - '0'.toNat

/-- Base-10 value of a digit sequence, as Python `int()` parses the matched
digits. -/
def digitsToNat (ds : List Char) : Nat :=
  ds.foldl (fun acc c => 10 * acc + digitVal c) 0

/-- The Test Summary record: the three captured counts. -/
structure Summary where
  tests : Nat
  failures : Nat
  ignored : Nat
deriving DecidableEq, Repr

/-- Consume a maximal nonempty digit run (`\d+`) from the front, returning
its base-10 value and the rest; fails when the first character is not a
digit. -/
def munchDigits (l : List Char) : Option (Nat × List Char) :=
  let ds := l.takeWhile isDigitC
  if ds = [] then none else some (digitsToNat ds, l.dropWhile isDigitC)

/-- Consume a maximal nonempty whitespace run (`\s+`) from the front,
returning the rest; fails when the first character is not whitespace. -/
def munchSpaces (l : List Char) : Option (List Char) :=
  let ws := l.takeWhile isSpaceC
  if ws = [] then none else some (l.dropWhile isSpaceC)

/-- Consume an exact literal word (case-sensitive) from the front,
returning the rest. -/
def munchWord : List Char → List Char → Option (List Char)
  | [], l => some l
  | _ :: _, [] => none
  | w :: ws, c :: cs => if c = w then munchWord ws cs else none

/-- Match the regex `(\d+)\s+Tests\s+(\d+)\s+Failures\s+(\d+)\s+Ignored`
anchored at the front of `l`; on success return the parsed summary and the
text following the match. -/
def matchAt (l : List Char) : Option (Summary × List Char) := do
  let (t, l1) ← munchDigits l
  let l2 ← munchSpaces l1
  let l3 ← munchWord "Tests".toList l2
  let l4 ← munchSpaces l3
  let (f, l5) ← munchDigits l4
  let l6 ← munchSpaces l5
  let l7 ← munchWord "Failures".toList l6
  let l8 ← munchSpaces l7
  let (i, l9) ← munchDigits l8
  let l10 ← munchSpaces l9
  let l11 ← munchWord "Ignored".toList l10
  pure (⟨t, f, i⟩, l11)

/-- Fuelled left-to-right non-overlapping scan: at each position try
`matchAt`; on success record the summary and resume after the match end,
otherwise advance one character.  Every successful match consumes at least
one character, so fuel equal to the length of the text suffices. -/
def findAllF : Nat → List Char → List Summary
  | 0, _ => []
  | _ + 1, [] => []
  | fuel + 1, c :: cs =>
    match matchAt (c :: cs) with
    | some (s, l2) => s :: findAllF fuel l2
    | none => findAllF fuel cs

/-- `re.findall` over the whole content: all non-overlapping occurrences of
the pattern, in textual order. -/
def findAll (l : List Char) : List Summary := findAllF l.length l

/-- The error message of the extractor's only failure. -/
def summaryNotFoundMsg : String := "Unity test summary not found in output"

/-- The extractor applied to file content: the last match wins, and zero
matches raise `ValueError` (modelled as `Except.error`). -/
def extractSummary (content : List Char) : Except String Summary :=
  match (findAll content).getLast? with
  | none => .error summaryNotFoundMsg
  | some s => .ok s

/-- Errors `parse_unity_output` can raise: `FileNotFoundError` and
`ValueError`, each carrying its message. -/
inductive PError where
  | fileNotFound (msg : String)
  | valueError (msg : String)
deriving DecidableEq, Repr

/-- `parse_unity_output`: check the path refers to a readable file
(`fs p = none` models a missing or unreadable file), read its content, and
extract the summary. -/
def parse_unity_output (fs : String → Option (List Char)) (p : String) :
    Except PError Summary :=
  match fs p with
  | none => .error (.fileNotFound ("Output file not found: " ++ p))
  | some content =>
    match extractSummary content with
    | .error m => .error (.valueError m)
    | .ok s => .ok s

/-- The observable result of a run: exit code and the lines written to the
standard output and standard error streams. -/
structure RunResult where
  exitCode : Nat
  stdout : List String
  stderr : List String
deriving DecidableEq, Repr

/-- The usage message printed on bad arity. -/
def usageMsg : String := "Usage: parse_unity_output.py <qemu_output.log>"

/-- The stdout report printed on a found summary. -/
def report (s : Summary) : List String :=
  ["Test Results:",
   "  Total Tests: " ++ toString s.tests,
   "  Failures: " ++ toString s.failures,
   "  Ignored: " ++ toString s.ignored,
   "",
   if s.failures = 0 then "✅ All tests passed!"
   else "❌ " ++ toString s.failures ++ " test(s) failed"]

/-- The stderr diagnostic printed when the summary is not found. -/
def notFoundStderr (m : String) : List String :=
  ["Error: " ++ m,
   "",
   "This usually means:",
   "  - Tests didn\x27t complete (QEMU timeout/crash)",
   "  - Unity framework wasn\x27t properly initialized",
   "  - Output was truncated"]

/-- The script's `main` (Lean reserves that name for entry points): validate
arity (`len(sys.argv) != 2`), run the parser on `sys.argv[1]`, print, and
select the exit code. -/
def mainRun (fs : String → Option (List Char)) (argv : List String) : RunResult :=
  match argv with
  | [_, p] =>
    match parse_unity_output fs p with
    | .ok s => ⟨if s.failures = 0 then 0 else 1, report s, []⟩
    | .error (.fileNotFound m) => ⟨2, [], ["Error: " ++ m]⟩
    | .error (.valueError m) => ⟨1, [], notFoundStderr m⟩
  | _ => ⟨2, [], [usageMsg]⟩

/-- The four terminal outcomes of the spec's state machine, with
`Completed` carrying the found summary. -/
inductive Outcome where
  | completed (s : Summary)
  | summaryNotFound
  | fileMissing
  | invalidArguments
deriving DecidableEq, Repr

/-- Classify an invocation into the spec's outcome taxonomy. -/
def outcomeOf (fs : String → Option (List Char)) (argv : List String) :
    Outcome :=
  match argv with
  | [_, p] =>
    match fs p with
    | none => .fileMissing
    | some content =>
      match extractSummary content with
      | .error _ => .summaryNotFound
      | .ok s => .completed s
  | _ => .invalidArguments

/-- The spec's exit-code table (section 4.2). -/
def specExitCode : Outcome → Nat
  | .completed s => if s.failures = 0 then 0 else 1
  | .summaryNotFound => 1
  | .fileMissing => 2
  | .invalidArguments => 2

/-- The spec's output-routing contract: the report goes to stdout exactly on
`Completed`; every other outcome writes nothing to stdout and an error
message (for `SummaryNotFound`, the root-cause diagnostic) to stderr. -/
def routedCorrectly (o : Outcome) (r : RunResult) : Prop :=
  match o with
  | .completed s => r.stdout = report s ∧ r.stderr = []
  | .summaryNotFound => r.stdout = [] ∧ r.stderr = notFoundStderr summaryNotFoundMsg
  | .fileMissing => r.stdout = [] ∧ r.stderr ≠ []
  | .invalidArguments => r.stdout = [] ∧ r.stderr = [usageMsg]

/-- Spec-side characterisation of one occurrence of the pattern anchored at
the front of `l`: nonempty digit runs and nonempty whitespace separators
around the case-sensitive literals, with the three counts parsed in base 10
from the matched digit sequences. -/
def IsOccurrenceAt (l : List Char) (s : Summary) (rest : List Char) : Prop :=
  ∃ d1 w1 w2 d2 w3 w4 d3 w5 : List Char,
    l = d1 ++ w1 ++ "Tests".toList ++ w2 ++ d2 ++ w3 ++ "Failures".toList ++
        w4 ++ d3 ++ w5 ++ "Ignored".toList ++ rest ∧
    d1 ≠ [] ∧ d2 ≠ [] ∧ d3 ≠ [] ∧
    w1 ≠ [] ∧ w2 ≠ [] ∧ w3 ≠ [] ∧ w4 ≠ [] ∧ w5 ≠ [] ∧
    (∀ c ∈ d1, isDigitC c = true) ∧ (∀ c ∈ d2, isDigitC c = true) ∧
    (∀ c ∈ d3, isDigitC c = true) ∧
    (∀ c ∈ w1, isSpaceC c = true) ∧ (∀ c ∈ w2, isSpaceC c = true) ∧
    (∀ c ∈ w3, isSpaceC c = true) ∧ (∀ c ∈ w4, isSpaceC c = true) ∧
    (∀ c ∈ w5, isSpaceC c = true) ∧
    s = ⟨digitsToNat d1, digitsToNat d2, digitsToNat d3⟩

/-! ### Helper lemmas -/

theorem space_not_digit (c : Char) (h : isSpaceC c = true) : isDigitC c = false := by
  simp only [isSpaceC, Bool.or_eq_true, decide_eq_true_eq] at h
  rcases h with ((((h | h) | h) | h) | h) | h <;> subst h <;> decide

theorem digit_not_space (c : Char) (h : isDigitC c = true) : isSpaceC c = false := by
  by_contra hc
  have hs : isSpaceC c = true := by
    cases hx : isSpaceC c
    · exact absurd hx hc
    · rfl
  have hnd := space_not_digit c hs
  rw [h] at hnd
  exact absurd hnd (by simp)

theorem span_append (p : Char → Bool) (a b : List Char)
    (ha : ∀ c ∈ a, p c = true)
    (hb : ∀ c, b.head? = some c → p c = false) :
    (a ++ b).takeWhile p = a ∧ (a ++ b).dropWhile p = b := by
  induction a with
  | nil =>
    simp only [List.nil_append]
    cases b with
    | nil => simp
    | cons x xs =>
      have hx := hb x (List.head?_cons)
      constructor
      · simp [List.takeWhile_cons, hx]
      · simp [List.dropWhile_cons, hx]
  | cons x xs ih =>
    have hx : p x = true := ha x (List.mem_cons_self x xs)
    have ih2 := ih (fun c hc => ha c (List.mem_cons_of_mem x hc))
    constructor
    · simp [List.takeWhile_cons, hx, ih2.1]
    · simp [List.dropWhile_cons, hx, ih2.2]

theorem munchDigits_eq_some {l : List Char} {n : Nat} {r : List Char}
    (h : munchDigits l = some (n, r)) :
    ∃ d, l = d ++ r ∧ d ≠ [] ∧ (∀ c ∈ d, isDigitC c = true) ∧
      n = digitsToNat d := by
  simp only [munchDigits] at h
  by_cases hds : l.takeWhile isDigitC = []
  · simp [hds] at h
  · rw [if_neg hds] at h
    obtain ⟨hn, hr⟩ := Prod.mk.injEq .. ▸ Option.some.injEq .. ▸ h
    refine ⟨l.takeWhile isDigitC, ?_, hds, ?_, hn.symm⟩
    · rw [← hr, List.takeWhile_append_dropWhile]
    · exact fun c hc => List.mem_takeWhile_imp hc

theorem munchSpaces_eq_some {l r : List Char}
    (h : munchSpaces l = some r) :
    ∃ w, l = w ++ r ∧ w ≠ [] ∧ (∀ c ∈ w, isSpaceC c = true) := by
  simp only [munchSpaces] at h
  by_cases hws : l.takeWhile isSpaceC = []
  · simp [hws] at h
  · rw [if_neg hws] at h
    obtain hr := Option.some.injEq .. ▸ h
    refine ⟨l.takeWhile isSpaceC, ?_, hws, ?_⟩
    · rw [← hr, List.takeWhile_append_dropWhile]
    · exact fun c hc => List.mem_takeWhile_imp hc

theorem munchWord_eq_some {w l r : List Char} (h : munchWord w l = some r) :
    l = w ++ r := by
  induction w generalizing l with
  | nil =>
    simp only [munchWord, Option.some.injEq] at h
    simp [h]
  | cons x xs ih =>
    cases l with
    | nil => simp [munchWord] at h
    | cons c cs =>
      simp only [munchWord] at h
      by_cases hc : c = x
      · rw [if_pos hc] at h
        rw [hc, List.cons_append, ih h]
      · rw [if_neg hc] at h
        exact absurd h (by simp)

theorem munchDigits_append {d r : List Char} (hd : d ≠ [])
    (hall : ∀ c ∈ d, isDigitC c = true)
    (hr : ∀ c, r.head? = some c → isDigitC c = false) :
    munchDigits (d ++ r) = some (digitsToNat d, r) := by
  obtain ⟨ht, hdr⟩ := span_append isDigitC d r hall hr
  simp only [munchDigits, ht, hdr, if_neg hd]

theorem munchSpaces_append {w r : List Char} (hw : w ≠ [])
    (hall : ∀ c ∈ w, isSpaceC c = true)
    (hr : ∀ c, r.head? = some c → isSpaceC c = false) :
    munchSpaces (w ++ r) = some r := by
  obtain ⟨ht, hdr⟩ := span_append isSpaceC w r hall hr
  simp only [munchSpaces, ht, hdr, if_neg hw]

theorem munchWord_append (w r : List Char) : munchWord w (w ++ r) = some r := by
  induction w with
  | nil => rfl
  | cons x xs ih => simp [munchWord, ih]

theorem head_append_mem {a b : List Char} {c : Char} (hne : a ≠ [])
    (hc : (a ++ b).head? = some c) : c ∈ a := by
  cases a with
  | nil => exact absurd rfl hne
  | cons x xs =>
    rw [List.cons_append, List.head?_cons, Option.some.injEq] at hc
    rw [← hc]
    exact List.mem_cons_self x xs

theorem matchAt_inv {l : List Char} {s : Summary} {r : List Char}
    (h : matchAt l = some (s, r)) : IsOccurrenceAt l s r := by
  simp only [matchAt, Option.bind_eq_bind, Option.bind_eq_some, Option.pure_def,
    Option.some.injEq, Prod.mk.injEq, Prod.exists] at h
  obtain ⟨t, l1, h1, l2, h2, l3, h3, l4, h4, f, l5, h5, l6, h6, l7, h7, l8, h8,
    i, l9, h9, l10, h10, l11, h11, hs, hr⟩ := h
  obtain ⟨d1, hd1eq, hd1ne, hd1all, hteq⟩ := munchDigits_eq_some h1
  obtain ⟨w1, hw1eq, hw1ne, hw1all⟩ := munchSpaces_eq_some h2
  have hT := munchWord_eq_some h3
  obtain ⟨w2, hw2eq, hw2ne, hw2all⟩ := munchSpaces_eq_some h4
  obtain ⟨d2, hd2eq, hd2ne, hd2all, hfeq⟩ := munchDigits_eq_some h5
  obtain ⟨w3, hw3eq, hw3ne, hw3all⟩ := munchSpaces_eq_some h6
  have hF := munchWord_eq_some h7
  obtain ⟨w4, hw4eq, hw4ne, hw4all⟩ := munchSpaces_eq_some h8
  obtain ⟨d3, hd3eq, hd3ne, hd3all, hieq⟩ := munchDigits_eq_some h9
  obtain ⟨w5, hw5eq, hw5ne, hw5all⟩ := munchSpaces_eq_some h10
  have hI := munchWord_eq_some h11
  refine ⟨d1, w1, w2, d2, w3, w4, d3, w5, ?_, hd1ne, hd2ne, hd3ne,
    hw1ne, hw2ne, hw3ne, hw4ne, hw5ne, hd1all, hd2all, hd3all,
    hw1all, hw2all, hw3all, hw4all, hw5all, ?_⟩
  · subst hr
    rw [hd1eq, hw1eq, hT, hw2eq, hd2eq, hw3eq, hF, hw4eq, hd3eq, hw5eq, hI]
    simp only [List.append_assoc]
  · rw [← hs, hteq, hfeq, hieq]

theorem head_no_digit {a b : List Char} (hne : a ≠ [])
    (hall : ∀ c ∈ a, isSpaceC c = true) :
    ∀ c, (a ++ b).head? = some c → isDigitC c = false :=
  fun c hc => space_not_digit c (hall c (head_append_mem hne hc))

theorem head_no_space_digit {a b : List Char} (hne : a ≠ [])
    (hall : ∀ c ∈ a, isDigitC c = true) :
    ∀ c, (a ++ b).head? = some c → isSpaceC c = false :=
  fun c hc => digit_not_space c (hall c (head_append_mem hne hc))

theorem head_no_space_word {a b : List Char} (hne : a ≠ [])
    (hall : ∀ c ∈ a, isSpaceC c = false) :
    ∀ c, (a ++ b).head? = some c → isSpaceC c = false :=
  fun c hc => hall c (head_append_mem hne hc)

theorem matchAt_of_occurrence {l : List Char} {s : Summary} {r : List Char}
    (h : IsOccurrenceAt l s r) : matchAt l = some (s, r) := by
  obtain ⟨d1, w1, w2, d2, w3, w4, d3, w5, hl, hd1ne, hd2ne, hd3ne,
    hw1ne, hw2ne, hw3ne, hw4ne, hw5ne, hd1all, hd2all, hd3all,
    hw1all, hw2all, hw3all, hw4all, hw5all, hs⟩ := h
  subst hl hs
  simp only [List.append_assoc]
  have hTne : "Tests".toList ≠ [] := by decide
  have hFne : "Failures".toList ≠ [] := by decide
  have hIne : "Ignored".toList ≠ [] := by decide
  have hTns : ∀ c ∈ "Tests".toList, isSpaceC c = false := by decide
  have hFns : ∀ c ∈ "Failures".toList, isSpaceC c = false := by decide
  have hIns : ∀ c ∈ "Ignored".toList, isSpaceC c = false := by decide
  simp only [matchAt, Option.bind_eq_bind]
  rw [munchDigits_append hd1ne hd1all (head_no_digit hw1ne hw1all)]
  simp only [Option.some_bind]
  rw [munchSpaces_append hw1ne hw1all (head_no_space_word hTne hTns)]
  simp only [Option.some_bind]
  rw [munchWord_append]
  simp only [Option.some_bind]
  rw [munchSpaces_append hw2ne hw2all (head_no_space_digit hd2ne hd2all)]
  simp only [Option.some_bind]
  rw [munchDigits_append hd2ne hd2all (head_no_digit hw3ne hw3all)]
  simp only [Option.some_bind]
  rw [munchSpaces_append hw3ne hw3all (head_no_space_word hFne hFns)]
  simp only [Option.some_bind]
  rw [munchWord_append]
  simp only [Option.some_bind]
  rw [munchSpaces_append hw4ne hw4all (head_no_space_digit hd3ne hd3all)]
  simp only [Option.some_bind]
  rw [munchDigits_append hd3ne hd3all (head_no_digit hw5ne hw5all)]
  simp only [Option.some_bind]
  rw [munchSpaces_append hw5ne hw5all (head_no_space_word hIne hIns)]
  simp only [Option.some_bind]
  rw [munchWord_append]
  rfl

theorem matchAt_length {l : List Char} {s : Summary} {r : List Char}
    (h : matchAt l = some (s, r)) : r.length < l.length := by
  obtain ⟨d1, w1, w2, d2, w3, w4, d3, w5, hl, hd1ne, _⟩ := matchAt_inv h
  have hd1 : 0 < d1.length := List.length_pos.mpr hd1ne
  subst hl
  simp only [List.length_append]
  omega

theorem findAllF_nil (fuel : Nat) : findAllF fuel [] = [] := by
  cases fuel <;> rfl

theorem findAllF_congr :
    ∀ (f1 f2 : Nat) (l : List Char), l.length ≤ f1 → l.length ≤ f2 →
      findAllF f1 l = findAllF f2 l := by
  intro f1
  induction f1 with
  | zero =>
    intro f2 l h1 _
    have hl : l = [] := List.eq_nil_of_length_eq_zero (Nat.le_zero.mp h1)
    subst hl
    rw [findAllF_nil, findAllF_nil]
  | succ k ih =>
    intro f2 l h1 h2
    cases l with
    | nil => rw [findAllF_nil, findAllF_nil]
    | cons c cs =>
      cases f2 with
      | zero =>
        rw [List.length_cons] at h2
        exact absurd h2 (by omega)
      | succ m =>
        rw [List.length_cons] at h1 h2
        simp only [findAllF]
        cases hm : matchAt (c :: cs) with
        | none => exact ih m cs (by omega) (by omega)
        | some p =>
          obtain ⟨s, l2⟩ := p
          have hlen := matchAt_length hm
          rw [List.length_cons] at hlen
          exact congrArg (s :: ·) (ih m l2 (by omega) (by omega))

theorem findAll_cons_match {c : Char} {cs : List Char} {s : Summary}
    {l2 : List Char} (h : matchAt (c :: cs) = some (s, l2)) :
    findAll (c :: cs) = s :: findAll l2 := by
  have hlen := matchAt_length h
  rw [List.length_cons] at hlen
  unfold findAll
  rw [List.length_cons]
  simp only [findAllF, h]
  exact congrArg (s :: ·) (findAllF_congr cs.length l2.length l2 (by omega) (by omega))

theorem findAll_cons_none {c : Char} {cs : List Char}
    (h : matchAt (c :: cs) = none) : findAll (c :: cs) = findAll cs := by
  unfold findAll
  rw [List.length_cons]
  simp only [findAllF, h]

theorem findAll_step {l : List Char} {s : Summary} {l2 : List Char}
    (h : matchAt l = some (s, l2)) : findAll l = s :: findAll l2 := by
  cases l with
  | nil => exact absurd h (by simp [matchAt, munchDigits])
  | cons c cs => exact findAll_cons_match h

theorem extractSummary_error_iff (c : List Char) (m : String) :
    extractSummary c = .error m ↔ findAll c = [] ∧ m = summaryNotFoundMsg := by
  unfold extractSummary
  cases hf : findAll c with
  | nil => simp [eq_comm]
  | cons a l =>
    rw [show (a :: l).getLast? = some ((a :: l).getLast (by simp)) from
      List.getLast?_eq_getLast (a :: l) (by simp)]
    simp

/-! ### Claim theorems -/

/-- C1: the process exit code follows the spec's table exactly: 0 for a
found summary with zero failures, 1 for a found summary with failures or a
missing summary, 2 for a missing file or a wrong argument count; for every
invocation the exit code is determined by this mapping of the outcome. -/
theorem c1_exit_code_table (fs : String → Option (List Char))
    (argv : List String) :
    (mainRun fs argv).exitCode = specExitCode (outcomeOf fs argv) := by
  match argv with
  | [] => rfl
  | [_] => rfl
  | _ :: _ :: _ :: _ => rfl
  | [a, p] =>
    cases hfs : fs p with
    | none => simp [mainRun, outcomeOf, parse_unity_output, hfs, specExitCode]
    | some content =>
      cases hex : extractSummary content with
      | error m =>
        simp [mainRun, outcomeOf, parse_unity_output, hfs, hex, specExitCode]
      | ok s =>
        simp [mainRun, outcomeOf, parse_unity_output, hfs, hex, specExitCode]

/-- C2: when the input contains two or more occurrences of the pattern, the
extracted summary is the one of the textually last occurrence, regardless
of the values in earlier occurrences. -/
theorem c2_last_occurrence_wins (content : List Char) (pre : List Summary)
    (s : Summary) (h : findAll content = pre ++ [s]) (hpre : pre ≠ []) :
    extractSummary content = .ok s := by
  unfold extractSummary
  rw [h, List.getLast?_concat]

/-- C2 witness: the spec's scenario 3, two occurrences, the last one (zero
failures) wins. -/
theorem c2_witness :
    findAll ("Running tests...\n5 Tests 1 Failures 0 Ignored\n(extra noise)\n5 Tests 0 Failures 0 Ignored".toList) =
      [⟨5, 1, 0⟩] ++ [⟨5, 0, 0⟩] ∧
    extractSummary ("Running tests...\n5 Tests 1 Failures 0 Ignored\n(extra noise)\n5 Tests 0 Failures 0 Ignored".toList) =
      .ok ⟨5, 0, 0⟩ :=
  ⟨by decide, c2_last_occurrence_wins _ [⟨5, 1, 0⟩] ⟨5, 0, 0⟩ (by decide)
    (by decide)⟩

/-- C3: extraction fails exactly on inputs with zero occurrences of the
pattern, with the summary-not-found message as its only failure mode; in
particular it fails on empty input, on a variant with a missing number and
on a variant with misspelled (lower-case) keywords. -/
theorem c3_not_found_only_failure :
    (∀ (content : List Char) (m : String),
        extractSummary content = .error m ↔
          findAll content = [] ∧ m = summaryNotFoundMsg) ∧
    extractSummary [] = .error summaryNotFoundMsg ∧
    extractSummary ("10 Tests Failures 1 Ignored".toList) =
      .error summaryNotFoundMsg ∧
    extractSummary ("10 tests 2 failures 1 ignored".toList) =
      .error summaryNotFoundMsg :=
  ⟨extractSummary_error_iff, rfl, rfl, rfl⟩

/-- C4: when the input contains exactly one occurrence of the pattern, the
extracted summary is the three integers of that occurrence. -/
theorem c4_single_occurrence (content : List Char) (s : Summary)
    (h : findAll content = [s]) : extractSummary content = .ok s := by
  unfold extractSummary
  rw [h]
  rfl

/-- C4 witness: one occurrence, extracted verbatim. -/
theorem c4_witness :
    findAll ("10 Tests 2 Failures 1 Ignored".toList) = [⟨10, 2, 1⟩] ∧
    extractSummary ("10 Tests 2 Failures 1 Ignored".toList) = .ok ⟨10, 2, 1⟩ :=
  ⟨by decide, c4_single_occurrence _ ⟨10, 2, 1⟩ (by decide)⟩

/-- C5: any argument count other than exactly one path (a two-element
`sys.argv`) yields exit code 2 with the usage message on stderr and nothing
on stdout, and the result is independent of the filesystem: no file access
is attempted. -/
theorem c5_invalid_arguments (fs : String → Option (List Char))
    (argv : List String) (h : argv.length ≠ 2) :
    mainRun fs argv = ⟨2, [], [usageMsg]⟩ ∧
    ∀ fs2 : String → Option (List Char), mainRun fs2 argv = mainRun fs argv := by
  match argv with
  | [] => exact ⟨rfl, fun _ => rfl⟩
  | [_] => exact ⟨rfl, fun _ => rfl⟩
  | [_, _] => exact absurd rfl h
  | _ :: _ :: _ :: _ => exact ⟨rfl, fun _ => rfl⟩

/-- C5 witness: two positional arguments (three-element `sys.argv`). -/
theorem c5_witness :
    (["prog", "a", "b"] : List String).length ≠ 2 ∧
    mainRun (fun _ => none) ["prog", "a", "b"] = ⟨2, [], [usageMsg]⟩ :=
  ⟨by decide, (c5_invalid_arguments (fun _ => none) ["prog", "a", "b"]
    (by decide)).1⟩

/-- C6: with exactly one argument naming an unreadable path, the run exits
with code 2, writes the file-not-found error to stderr, and writes nothing
to stdout. -/
theorem c6_file_missing (fs : String → Option (List Char)) (a p : String)
    (h : fs p = none) :
    mainRun fs [a, p] =
      ⟨2, [], ["Error: " ++ ("Output file not found: " ++ p)]⟩ := by
  simp only [mainRun, parse_unity_output, h]

/-- C6 witness: a filesystem with no readable files. -/
theorem c6_witness :
    mainRun (fun _ => none) ["parse_unity_output.py", "qemu_output.log"] =
      ⟨2, [],
        ["Error: " ++ ("Output file not found: " ++ "qemu_output.log")]⟩ :=
  c6_file_missing (fun _ => none) "parse_unity_output.py" "qemu_output.log" rfl

/-- C7: a substring is an occurrence of the pattern exactly when it has the
shape digits, whitespace, `Tests`, whitespace, digits, whitespace,
`Failures`, whitespace, digits, whitespace, `Ignored`, with nonempty digit
runs and nonempty whitespace separators and case-sensitive literals,
independent of line structure; the parsed counts are the base-10 values of
the matched digit runs. -/
theorem c7_pattern_characterisation (l : List Char) (s : Summary)
    (r : List Char) : matchAt l = some (s, r) ↔ IsOccurrenceAt l s r :=
  ⟨matchAt_inv, matchAt_of_occurrence⟩

/-- C8: extraction is a deterministic pure function of the input text: two
runs on the same content give the same result. -/
theorem c8_deterministic (content : List Char)
    (r1 r2 : Except String Summary) (h1 : extractSummary content = r1)
    (h2 : extractSummary content = r2) : r1 = r2 := by
  rw [← h1, ← h2]

/-- C8 witness: two runs on empty content agree. -/
theorem c8_witness :
    (Except.error summaryNotFoundMsg : Except String Summary) =
      Except.error summaryNotFoundMsg :=
  c8_deterministic [] (Except.error summaryNotFoundMsg)
    (Except.error summaryNotFoundMsg) rfl rfl

/-- C10: the scan is left-to-right and non-overlapping: after a match the
scan resumes at the match end, so a candidate starting strictly inside an
already-matched occurrence is never selected; on content whose only summary
text is `12 Tests 3 Failures 4 Ignored` the only occurrence found has tests
count 12, and the overlapping candidate with tests count 2 is never
returned. -/
theorem c10_nonoverlapping_scan :
    (∀ (l : List Char) (s : Summary) (l2 : List Char),
        matchAt l = some (s, l2) → findAll l = s :: findAll l2) ∧
    findAll ("12 Tests 3 Failures 4 Ignored".toList) = [⟨12, 3, 4⟩] ∧
    extractSummary ("12 Tests 3 Failures 4 Ignored".toList) = .ok ⟨12, 3, 4⟩ :=
  ⟨fun _ _ _ h => findAll_step h, by decide, rfl⟩

/-- C9: output is routed by outcome: the report goes to stdout exactly on a
found summary, every failure outcome writes nothing to stdout and an error
message to stderr, and the summary-not-found message lists the likely root
causes. -/
theorem c9_output_routing (fs : String → Option (List Char))
    (argv : List String) :
    routedCorrectly (outcomeOf fs argv) (mainRun fs argv) := by
  match argv with
  | [] => exact ⟨rfl, rfl⟩
  | [_] => exact ⟨rfl, rfl⟩
  | _ :: _ :: _ :: _ => exact ⟨rfl, rfl⟩
  | [a, p] =>
    cases hfs : fs p with
    | none =>
      simp [mainRun, outcomeOf, parse_unity_output, hfs, routedCorrectly]
    | some content =>
      cases hex : extractSummary content with
      | ok s =>
        simp [mainRun, outcomeOf, parse_unity_output, hfs, hex, routedCorrectly]
      | error m =>
        have hm := ((extractSummary_error_iff content m).mp hex).2
        subst hm
        simp [mainRun, outcomeOf, parse_unity_output, hfs, hex, routedCorrectly]
